import Mathlib

/-!
Verification of `youtube-8m-cnn/frame_level_models.py`.

The file shallowly embeds the sequence-aggregation layer of the repository:
the shared non-zero frame mask, the attention aggregator (`AttentionModel`),
the multi-scale convolutional aggregator (`CnnModel`), the per-frame mixture
aggregator (`MixLogisticModel`), the initialization constants of the
bag-of-frames aggregator (`DbofModel`), its Python `or` argument defaulting,
and — modelled from the spec where the repository file only calls them — the
frame sub-sampling utilities and the count-gated recurrence of `LstmModel`.

Tensors are modelled per video: a frame batch row is `x : Fin L → Fin d → K`
(`L` = `max_frames`, `d` = `feature_size`), a declared frame count is a `ℕ`.
Real-valued nonlinearities (`tf.exp` inside softmax, `tf.tanh`) force `ℝ` for
the attention and convolutional paths; the purely rational mask arithmetic is
stated over any linear ordered field so that witnesses can be evaluated on `ℚ`.
Division by zero follows Lean's `x / 0 = 0` convention; all claims about
normalization carry the nonzero-denominator hypothesis the spec itself assumes.
-/

namespace FrameLevelModels

open Finset

/-! ## The shared non-zero frame mask (§4.1)

`frames_sum = tf.reduce_sum(tf.abs(model_input), axis=2)` followed by
`frames_bool = tf.where(tf.greater(frames_sum, 0), 1, 0)` — lines 256-259
(`AttentionModel`), 344-347 (`CnnModel`) and 465-468 (`MixLogisticModel`)
of `frame_level_models.py` compute it identically inline. -/

/-- Mask entry of one frame slot: `1` when the sum of the absolute feature
values at that slot is strictly positive, else `0` (lines 256-259). -/
def maskEntry {K : Type*} [LinearOrderedField K] {d L : ℕ}
    (x : Fin L → Fin d → K) (f : Fin L) : K :=
  if 0 < ∑ j, |x f j| then 1 else 0

/-- Per-video sum of the mask entries: the denominator of the weight
normalization (`tf.reduce_sum(frames_bool, axis=1)`, line 470; also the
denominator on line 275 once the softmax factor is accounted for). -/
def maskSum {K : Type*} [LinearOrderedField K] {d L : ℕ}
    (x : Fin L → Fin d → K) : K :=
  ∑ f, maskEntry x f

/-- Normalized per-frame weight: each mask entry divided by the per-video
mask sum (line 470, `frames_bool / tf.reduce_sum(frames_bool, axis=1)`). -/
def maskWeight {K : Type*} [LinearOrderedField K] {d L : ℕ}
    (x : Fin L → Fin d → K) (f : Fin L) : K :=
  maskEntry x f / maskSum x

section MaskLemmas

variable {K : Type*} [LinearOrderedField K] {d L : ℕ} (x : Fin L → Fin d → K)

lemma maskEntry_nonneg (f : Fin L) : 0 ≤ maskEntry x f := by
  unfold maskEntry; split <;> norm_num

lemma maskEntry_eq_one_iff (f : Fin L) :
    maskEntry x f = 1 ↔ (∑ j, |x f j|) ≠ 0 := by
  have habs : 0 ≤ ∑ j, |x f j| := Finset.sum_nonneg fun j _ => abs_nonneg _
  unfold maskEntry
  constructor
  · intro h
    by_contra hz
    rw [if_neg (by rw [hz]; exact lt_irrefl 0)] at h
    exact zero_ne_one h
  · intro h
    rw [if_pos (lt_of_le_of_ne habs (Ne.symm h))]

lemma maskEntry_eq_zero_iff (f : Fin L) :
    maskEntry x f = 0 ↔ (∑ j, |x f j|) = 0 := by
  have habs : 0 ≤ ∑ j, |x f j| := Finset.sum_nonneg fun j _ => abs_nonneg _
  unfold maskEntry
  constructor
  · intro h
    by_contra hz
    rw [if_pos (lt_of_le_of_ne habs (Ne.symm hz))] at h
    exact one_ne_zero h
  · intro h
    rw [if_neg (by rw [h]; exact lt_irrefl 0)]

lemma maskSum_nonneg : 0 ≤ maskSum x :=
  Finset.sum_nonneg fun f _ => maskEntry_nonneg x f

lemma sum_maskWeight_eq_one (h : maskSum x ≠ 0) :
    ∑ f, maskWeight x f = 1 := by
  unfold maskWeight
  rw [← Finset.sum_div, ← maskSum, div_self h]

end MaskLemmas

/-- Claim C1: the inline frame-validity mask of the attention, convolutional
and mixture aggregators marks a slot `1` exactly when the sum of absolute
feature values there is nonzero (else `0`), and the derived weight vector
divides each mask entry by the per-video mask sum, so when that sum is
nonzero the weights sum to `1` over the active frames. -/
theorem C1_mask_and_weights {K : Type*} [LinearOrderedField K] {d L : ℕ}
    (x : Fin L → Fin d → K) (f : Fin L) (h : maskSum x ≠ 0) :
    (maskEntry x f = 1 ↔ (∑ j, |x f j|) ≠ 0) ∧
    (maskEntry x f = 0 ↔ (∑ j, |x f j|) = 0) ∧
    maskWeight x f = maskEntry x f / maskSum x ∧
    ∑ g, maskWeight x g = 1 :=
  ⟨maskEntry_eq_one_iff x f, maskEntry_eq_zero_iff x f, rfl,
    sum_maskWeight_eq_one x h⟩

/-- Witness for C1 at a concrete batch over `ℚ`: two frame slots of one
feature each, holding `1` and `0`. -/
theorem C1_mask_and_weights_witness :
    (maskEntry (K := ℚ) ![![1], ![0]] 0 = 1 ↔ (∑ j, |![![(1 : ℚ)], ![0]] 0 j|) ≠ 0) ∧
    (maskEntry (K := ℚ) ![![1], ![0]] 0 = 0 ↔ (∑ j, |![![(1 : ℚ)], ![0]] 0 j|) = 0) ∧
    maskWeight (K := ℚ) ![![1], ![0]] 0 = maskEntry (K := ℚ) ![![1], ![0]] 0 / maskSum ![![1], ![0]] ∧
    ∑ g, maskWeight (K := ℚ) ![![1], ![0]] g = 1 :=
  C1_mask_and_weights ![![1], ![0]] 0 (by
    norm_num [maskSum, maskEntry, Fin.sum_univ_two, Fin.sum_univ_one])

/-! ## The attention aggregator (`AttentionModel.create_model`, lines 239-285)

Per video: `avg_pooled` divides the frame sum by the declared frame count
(lines 261-266); every frame is concatenated with that average and sent
through one learned linear map `W : [2*feature_size, 1]`, `b : [1]`
(lines 268-272); `tf.nn.softmax` is applied to the resulting
`[batch*max_frames, 1]` tensor, i.e. over an axis of size one (line 273);
the result is multiplied by the non-zero mask and renormalized (lines
274-275), and the state is the weighted sum of the original frames
(line 277). The weight matrix on the concatenated input is split here into
its two halves `Wx` (acting on the frame) and `Wa` (acting on the average). -/

/-- Count-normalized per-video average feature vector (lines 261-266):
the frame sum divided by the declared frame count. -/
noncomputable def avgPooled {d L : ℕ} (count : ℕ) (x : Fin L → Fin d → ℝ)
    (j : Fin d) : ℝ :=
  (∑ f, x f j) / (count : ℝ)

/-- Scalar attention logit of one frame (lines 268-272):
`xw_plus_b` on the frame feature concatenated with the broadcast average. -/
noncomputable def attLogit {d L : ℕ} (Wx Wa : Fin d → ℝ) (b : ℝ) (count : ℕ)
    (x : Fin L → Fin d → ℝ) (f : Fin L) : ℝ :=
  (∑ j, x f j * Wx j) + (∑ j, avgPooled count x j * Wa j) + b

/-- Pre-mask attention value of one frame (line 273): `tf.nn.softmax` over
the last axis of the `[batch*max_frames, 1]` logit tensor — an axis holding
the single entry `attLogit … f`. -/
noncomputable def attPre {d L : ℕ} (Wx Wa : Fin d → ℝ) (b : ℝ) (count : ℕ)
    (x : Fin L → Fin d → ℝ) (f : Fin L) : ℝ :=
  Real.exp (attLogit Wx Wa b count x f) /
    ∑ _i : Fin 1, Real.exp (attLogit Wx Wa b count x f)

/-- Denominator of the attention renormalization (line 275):
the per-video sum of the masked softmax outputs. -/
noncomputable def attDen {d L : ℕ} (Wx Wa : Fin d → ℝ) (b : ℝ) (count : ℕ)
    (x : Fin L → Fin d → ℝ) : ℝ :=
  ∑ g, attPre Wx Wa b count x g * maskEntry x g

/-- Final attention weight of one frame (lines 274-275): the masked softmax
output renormalized by its per-video sum. -/
noncomputable def atten {d L : ℕ} (Wx Wa : Fin d → ℝ) (b : ℝ) (count : ℕ)
    (x : Fin L → Fin d → ℝ) (f : Fin L) : ℝ :=
  attPre Wx Wa b count x f * maskEntry x f / attDen Wx Wa b count x

/-- Aggregated state (line 277): the attention-weighted sum of the original
(non-augmented) per-frame features. -/
noncomputable def attState {d L : ℕ} (Wx Wa : Fin d → ℝ) (b : ℝ) (count : ℕ)
    (x : Fin L → Fin d → ℝ) (j : Fin d) : ℝ :=
  ∑ f, x f j * atten Wx Wa b count x f

/-- Modelled from the spec (§4.5): the softmax the spec describes, applied
across the *frame* axis. Kept for comparison with the code's `attPre`. -/
noncomputable def specSoftmax {d L : ℕ} (Wx Wa : Fin d → ℝ) (b : ℝ) (count : ℕ)
    (x : Fin L → Fin d → ℝ) (f : Fin L) : ℝ :=
  Real.exp (attLogit Wx Wa b count x f) /
    ∑ g, Real.exp (attLogit Wx Wa b count x g)

/-- Modelled from the spec (§4.5): the attention weights the spec describes —
frame-axis softmax, zeroed at masked positions, renormalized. -/
noncomputable def specAtten {d L : ℕ} (Wx Wa : Fin d → ℝ) (b : ℝ) (count : ℕ)
    (x : Fin L → Fin d → ℝ) (f : Fin L) : ℝ :=
  specSoftmax Wx Wa b count x f * maskEntry x f /
    ∑ g, specSoftmax Wx Wa b count x g * maskEntry x g

section AttentionLemmas

variable {d L : ℕ} (Wx Wa : Fin d → ℝ) (b : ℝ) (count : ℕ)
  (x : Fin L → Fin d → ℝ)

lemma attPre_eq_one (f : Fin L) : attPre Wx Wa b count x f = 1 := by
  unfold attPre
  rw [Fin.sum_univ_one, div_self (Real.exp_ne_zero _)]

lemma attDen_eq_maskSum : attDen Wx Wa b count x = maskSum x := by
  unfold attDen maskSum
  exact Finset.sum_congr rfl fun g _ => by rw [attPre_eq_one, one_mul]

lemma atten_eq_maskWeight (f : Fin L) :
    atten Wx Wa b count x f = maskEntry x f / maskSum x := by
  unfold atten
  rw [attPre_eq_one, one_mul, attDen_eq_maskSum]

lemma attState_eq_maskAvg (j : Fin d) :
    attState Wx Wa b count x j = ∑ f, x f j * (maskEntry x f / maskSum x) :=
  Finset.sum_congr rfl fun f _ => by rw [atten_eq_maskWeight]

end AttentionLemmas

/-- Claim C2 (amended): each augmented frame vector goes through a single
learned linear map to a scalar logit, but the softmax is applied over the
*singleton* last axis of the `[batch*max_frames, 1]` tensor — not across the
frame axis — so every pre-mask value is `1`; after masking by the non-zero
mask and renormalizing, the attention weight of a frame is its mask entry
divided by the mask sum, and the output is that frame-weighted sum of the
original per-frame features. -/
theorem C2_attention_pipeline {d L : ℕ} (Wx Wa : Fin d → ℝ) (b : ℝ)
    (count : ℕ) (x : Fin L → Fin d → ℝ) :
    (∀ f, attPre Wx Wa b count x f = 1) ∧
    (∀ f, atten Wx Wa b count x f = maskEntry x f / maskSum x) ∧
    (∀ j, attState Wx Wa b count x j =
      ∑ f, x f j * (maskEntry x f / maskSum x)) :=
  ⟨attPre_eq_one Wx Wa b count x, atten_eq_maskWeight Wx Wa b count x,
    attState_eq_maskAvg Wx Wa b count x⟩

/-- Counterexample to C2 as stated: on a video of two active frames `1` and
`2` (one feature, count 2) with attention parameters `Wx = 1`, `Wa = 0`,
`b = 0`, the weights the spec describes (softmax across the frame axis,
masked, renormalized) differ from what the code computes. -/
theorem C2_counterexample :
    specAtten ![1] ![0] 0 2 ![![1], ![2]] 0 ≠ atten ![1] ![0] 0 2 ![![1], ![2]] 0 := by
  have hl0 : attLogit ![1] ![0] 0 2 ![![1], ![2]] 0 = 1 := by
    simp [attLogit, avgPooled, Fin.sum_univ_one, Fin.sum_univ_two]
  have hl1 : attLogit ![1] ![0] 0 2 ![![1], ![2]] 1 = 2 := by
    simp [attLogit, avgPooled, Fin.sum_univ_one, Fin.sum_univ_two]
  have hm0 : maskEntry (K := ℝ) ![![1], ![2]] 0 = 1 := by
    norm_num [maskEntry, Fin.sum_univ_one]
  have hm1 : maskEntry (K := ℝ) ![![1], ![2]] 1 = 1 := by
    norm_num [maskEntry, Fin.sum_univ_one]
  have hms : maskSum (K := ℝ) ![![1], ![2]] = 2 := by
    rw [maskSum, Fin.sum_univ_two, hm0, hm1]; norm_num
  have hatt : atten ![1] ![0] 0 2 ![![1], ![2]] 0 = 1 / 2 := by
    rw [atten_eq_maskWeight, hm0, hms]
  have hT : (0 : ℝ) < Real.exp 1 + Real.exp 2 :=
    add_pos (Real.exp_pos 1) (Real.exp_pos 2)
  have hspec : specAtten ![1] ![0] 0 2 ![![1], ![2]] 0 =
      Real.exp 1 / (Real.exp 1 + Real.exp 2) := by
    unfold specAtten specSoftmax
    rw [Fin.sum_univ_two, Fin.sum_univ_two, hl0, hl1, hm0, hm1]
    field_simp
  rw [hspec, hatt]
  intro h
  rw [div_eq_div_iff hT.ne' (by norm_num)] at h
  have hee : Real.exp 1 = Real.exp 2 := by linarith
  have := Real.exp_injective hee
  norm_num at this

/-- Claim C10: the softmax is taken over a singleton axis, so every pre-mask
weight is `1`; the final weights are the uniform distribution over the frames
with nonzero absolute-value sum (summing to 1), the aggregated state is the
unweighted mean of those frames, and the output does not depend on the
attention parameters `W`, `b` at all. -/
theorem C10_attention_ignores_parameters {d L : ℕ} (count : ℕ)
    (x : Fin L → Fin d → ℝ) (W1x W1a : Fin d → ℝ) (b1 : ℝ)
    (W2x W2a : Fin d → ℝ) (b2 : ℝ) (h : maskSum x ≠ 0) :
    (∀ f, attPre W1x W1a b1 count x f = 1) ∧
    atten W1x W1a b1 count x = atten W2x W2a b2 count x ∧
    attState W1x W1a b1 count x = attState W2x W2a b2 count x ∧
    (∑ f, atten W1x W1a b1 count x f = 1) ∧
    maskSum x = ((Finset.univ.filter fun f : Fin L =>
      0 < ∑ j, |x f j|).card : ℝ) ∧
    (∀ f, maskEntry x f = 1 → atten W1x W1a b1 count x f = 1 / maskSum x) ∧
    (∀ f, maskEntry x f = 0 → atten W1x W1a b1 count x f = 0) ∧
    (∀ j, attState W1x W1a b1 count x j =
      (∑ f, maskEntry x f * x f j) / maskSum x) := by
  refine ⟨attPre_eq_one W1x W1a b1 count x, ?_, ?_, ?_, ?_, ?_, ?_, ?_⟩
  · funext f
    rw [atten_eq_maskWeight, atten_eq_maskWeight]
  · funext j
    rw [attState_eq_maskAvg, attState_eq_maskAvg]
  · calc ∑ f, atten W1x W1a b1 count x f
        = ∑ f, maskWeight x f :=
          Finset.sum_congr rfl fun f _ => atten_eq_maskWeight _ _ _ _ _ f
      _ = 1 := sum_maskWeight_eq_one x h
  · rw [maskSum]
    unfold maskEntry
    rw [Finset.sum_boole]
  · intro f hf
    rw [atten_eq_maskWeight, hf]
  · intro f hf
    rw [atten_eq_maskWeight, hf, zero_div]
  · intro j
    rw [attState_eq_maskAvg, Finset.sum_div]
    exact Finset.sum_congr rfl fun f _ => by ring

/-- Witness for C10 at a concrete one-frame video over `ℝ`. -/
theorem C10_attention_ignores_parameters_witness :
    (∀ f, attPre ![0] ![0] 0 1 ![![(1 : ℝ)]] f = 1) ∧
    atten ![0] ![0] 0 1 ![![(1 : ℝ)]] = atten ![1] ![1] 5 1 ![![(1 : ℝ)]] ∧
    attState ![0] ![0] 0 1 ![![(1 : ℝ)]] = attState ![1] ![1] 5 1 ![![(1 : ℝ)]] ∧
    (∑ f, atten ![0] ![0] 0 1 ![![(1 : ℝ)]] f = 1) ∧
    maskSum (K := ℝ) ![![(1 : ℝ)]] = ((Finset.univ.filter fun f : Fin 1 =>
      0 < ∑ j, |(![![(1 : ℝ)]] : Fin 1 → Fin 1 → ℝ) f j|).card : ℝ) ∧
    (∀ f, maskEntry (K := ℝ) ![![(1 : ℝ)]] f = 1 →
      atten ![0] ![0] 0 1 ![![(1 : ℝ)]] f = 1 / maskSum (K := ℝ) ![![(1 : ℝ)]]) ∧
    (∀ f, maskEntry (K := ℝ) ![![(1 : ℝ)]] f = 0 →
      atten ![0] ![0] 0 1 ![![(1 : ℝ)]] f = 0) ∧
    (∀ j, attState ![0] ![0] 0 1 ![![(1 : ℝ)]] j =
      (∑ f, maskEntry (K := ℝ) ![![(1 : ℝ)]] f * ![![(1 : ℝ)]] f j) /
        maskSum (K := ℝ) ![![(1 : ℝ)]]) :=
  C10_attention_ignores_parameters 1 ![![(1 : ℝ)]] ![0] ![0] 0 ![1] ![1] 5
    (by norm_num [maskSum, maskEntry, Fin.sum_univ_one])

/-! ## The mixture aggregator (`MixLogisticModel.create_model`, lines 440-491)

Lines 472-480 apply one learned `tanh` layer and one learned `sigmoid`
layer to every frame row independently; the layers are shared across frames,
so they are modelled as arbitrary per-frame functions `hidden` and `pred`.
Lines 482-484 average both the hidden features and the per-frame predictions
with the normalized non-zero mask, renormalizing the averaged prediction
across the vocabulary; lines 486-491 blend with the downstream classifier
(abstract here, per the spec's external-interface contract). -/

/-- Frame-weighted average hidden feature (line 482). -/
def mixVideoFeatures {K : Type*} [LinearOrderedField K] {d L : ℕ}
    (hidden : (Fin d → K) → Fin d → K) (x : Fin L → Fin d → K)
    (j : Fin d) : K :=
  ∑ f, hidden (x f) j * maskWeight x f

/-- Frame-weighted average of the per-frame predictions (line 483), before
the vocabulary renormalization. -/
def mixOutPre {K : Type*} [LinearOrderedField K] {d L V : ℕ}
    (hidden : (Fin d → K) → Fin d → K) (pred : (Fin d → K) → Fin V → K)
    (x : Fin L → Fin d → K) (v : Fin V) : K :=
  ∑ f, pred (hidden (x f)) v * maskWeight x f

/-- Vocabulary renormalization of the averaged prediction (line 484). -/
def mixOut {K : Type*} [LinearOrderedField K] {d L V : ℕ}
    (hidden : (Fin d → K) → Fin d → K) (pred : (Fin d → K) → Fin V → K)
    (x : Fin L → Fin d → K) (v : Fin V) : K :=
  mixOutPre hidden pred x v / ∑ u, mixOutPre hidden pred x u

/-- Final blended prediction (line 490): the mean of the downstream
classifier's prediction on the averaged features and the averaged per-frame
prediction. -/
def mixPredictions {K : Type*} [LinearOrderedField K] {d L V : ℕ}
    (cls : (Fin d → K) → Fin V → K) (hidden : (Fin d → K) → Fin d → K)
    (pred : (Fin d → K) → Fin V → K) (x : Fin L → Fin d → K)
    (v : Fin V) : K :=
  (cls (mixVideoFeatures hidden x) v + mixOut hidden pred x v) / 2

/-- Claim C3: in the mixture aggregator, for a video whose frame slots all
hold one identical (active, i.e. nonzero-absolute-sum) feature vector, the
frame-weighted average of the per-frame predictions equals the per-frame
prediction computed on that single vector, and likewise for the averaged
hidden feature. -/
theorem C3_mixture_identical_frames {K : Type*} [LinearOrderedField K]
    {d L V : ℕ} (hidden : (Fin d → K) → Fin d → K)
    (pred : (Fin d → K) → Fin V → K) (x : Fin L → Fin d → K)
    (v0 : Fin d → K) (hL : 0 < L) (hall : ∀ f, x f = v0)
    (hv : (∑ j, |v0 j|) ≠ 0) :
    (∀ c, mixOutPre hidden pred x c = pred (hidden v0) c) ∧
    (∀ j, mixVideoFeatures hidden x j = hidden v0 j) := by
  have hm : ∀ f, maskEntry x f = 1 := fun f => by
    rw [show maskEntry x f = maskEntry (fun _ : Fin L => v0) f by
      unfold maskEntry; rw [hall f]]
    exact (maskEntry_eq_one_iff _ f).mpr hv
  have hsum : maskSum x = (L : K) := by
    unfold maskSum
    rw [Finset.sum_congr rfl fun f _ => hm f]
    simp
  have hLK : (L : K) ≠ 0 := Nat.cast_ne_zero.mpr hL.ne'
  have hwgt : ∀ f, maskWeight x f = 1 / (L : K) := fun f => by
    unfold maskWeight
    rw [hm f, hsum]
  constructor
  · intro c
    unfold mixOutPre
    rw [Finset.sum_congr rfl fun f _ => by rw [hall f, hwgt f]]
    rw [Finset.sum_const, Finset.card_univ, Fintype.card_fin, nsmul_eq_mul]
    field_simp
  · intro j
    unfold mixVideoFeatures
    rw [Finset.sum_congr rfl fun f _ => by rw [hall f, hwgt f]]
    rw [Finset.sum_const, Finset.card_univ, Fintype.card_fin, nsmul_eq_mul]
    field_simp

/-- Witness for C3 over `ℚ`: two identical frames holding the vector `(1)`,
with the hidden layer the identity and the prediction reading the feature. -/
theorem C3_mixture_identical_frames_witness :
    (∀ c, mixOutPre (K := ℚ) (V := 1) id (fun v _ => v 0)
      (fun _ : Fin 2 => ![1]) c = (fun v _ => v 0) (id ![1]) c) ∧
    (∀ j, mixVideoFeatures (K := ℚ) id (fun _ : Fin 2 => ![1]) j =
      id ![(1 : ℚ)] j) :=
  C3_mixture_identical_frames id (fun v _ => v 0) (fun _ : Fin 2 => ![1])
    ![1] (by norm_num) (fun _ => rfl) (by norm_num [Fin.sum_univ_one])

/-! ## The multi-scale convolutional aggregator (`CnnModel.create_model`,
lines 313-438)

The live loop (lines 393-410) runs over `zip(filter_sizes, steps,
num_filters)` with `filter_sizes = [1, 3, 5, 10, 20]` (line 329) and
`num_filters = [400, 300, 200, 100, 100]` (line 341); `steps` is unused in
the live loop. For each width `w`: a `VALID` 1-D convolution over the frame
axis (line 399) followed by `tanh` (line 401) yields an output sequence of
`L - w + 1` positions; the non-zero mask truncated to the first `L - w + 1`
slots and renormalized (lines 406-407) weights the sum over positions
(line 409). The five pooled vectors are concatenated (line 416) and, since
`h_drop = h_pool` (line 430), that concatenation is the aggregator output.
The loop is unrolled over the five fixed `(width, channels)` pairs, with one
weight/bias variable per iteration as in the source. -/

/-- Documentation of the fixed filter widths (line 329). -/
def filterSizes : List ℕ := [1, 3, 5, 10, 20]

/-- Documentation of the fixed per-filter channel counts (line 341). -/
def numFilters : List ℕ := [400, 300, 200, 100, 100]

/-- One entry of the convolution output after `tanh` (lines 399-401):
position `p`, channel `c` of the `VALID` width-`w` convolution. -/
noncomputable def convVal (d L w F : ℕ) (W : Fin w → Fin d → Fin F → ℝ)
    (b : Fin F → ℝ) (x : Fin L → Fin d → ℝ) (p : Fin (L + 1 - w))
    (c : Fin F) : ℝ :=
  Real.tanh ((∑ i : Fin w, ∑ j : Fin d,
    x ⟨(p : ℕ) + (i : ℕ), by have hp := p.isLt; have hi := i.isLt; omega⟩ j * W i j c) + b c)

/-- The convolution's output sequence (lines 399-404): one `Fin F → ℝ`
vector per valid position. -/
noncomputable def convOutput (d L w F : ℕ) (W : Fin w → Fin d → Fin F → ℝ)
    (b : Fin F → ℝ) (x : Fin L → Fin d → ℝ) : List (Fin F → ℝ) :=
  List.ofFn fun p : Fin (L + 1 - w) => convVal d L w F W b x p

/-- Denominator of the truncated mask normalization (line 407): the sum of
the non-zero mask over the first `L - w + 1` frame slots. -/
noncomputable def cnnMaskSum {d L : ℕ} (w : ℕ) (hw : 0 < w) (x : Fin L → Fin d → ℝ) : ℝ :=
  ∑ q : Fin (L + 1 - w), maskEntry x ⟨q, by have hq := q.isLt; omega⟩

/-- Truncated, renormalized frame weight at a convolution output position
(lines 406-407). -/
noncomputable def cnnFrameBool {d L : ℕ} (w : ℕ) (hw : 0 < w)
    (x : Fin L → Fin d → ℝ) (p : Fin (L + 1 - w)) : ℝ :=
  maskEntry x ⟨p, by have hp := p.isLt; omega⟩ / cnnMaskSum w hw x

/-- Pooled output of one filter (line 409): the mask-weighted sum of the
convolution outputs over the valid positions. -/
noncomputable def cnnPooledFilter (d L w F : ℕ) (hw : 0 < w)
    (W : Fin w → Fin d → Fin F → ℝ) (b : Fin F → ℝ)
    (x : Fin L → Fin d → ℝ) (c : Fin F) : ℝ :=
  ∑ p, convVal d L w F W b x p c * cnnFrameBool w hw x p

/-- The aggregator output `h_pool = h_drop` (lines 416, 430): the
concatenation of the five pooled vectors, widths 1, 3, 5, 10, 20 with
400, 300, 200, 100, 100 channels. -/
noncomputable def cnnHPoolList (d L : ℕ)
    (W1 : Fin 1 → Fin d → Fin 400 → ℝ) (b1 : Fin 400 → ℝ)
    (W3 : Fin 3 → Fin d → Fin 300 → ℝ) (b3 : Fin 300 → ℝ)
    (W5 : Fin 5 → Fin d → Fin 200 → ℝ) (b5 : Fin 200 → ℝ)
    (W10 : Fin 10 → Fin d → Fin 100 → ℝ) (b10 : Fin 100 → ℝ)
    (W20 : Fin 20 → Fin d → Fin 100 → ℝ) (b20 : Fin 100 → ℝ)
    (x : Fin L → Fin d → ℝ) : List ℝ :=
  List.ofFn (cnnPooledFilter d L 1 400 one_pos W1 b1 x) ++
    (List.ofFn (cnnPooledFilter d L 3 300 (by norm_num) W3 b3 x) ++
      (List.ofFn (cnnPooledFilter d L 5 200 (by norm_num) W5 b5 x) ++
        (List.ofFn (cnnPooledFilter d L 10 100 (by norm_num) W10 b10 x) ++
          List.ofFn (cnnPooledFilter d L 20 100 (by norm_num) W20 b20 x))))

/-- Claim C5: for each filter of width `w` on a frame sequence of length
`L ≥ w`, the convolution's output sequence length is `L - w + 1`, and the
concatenated pooled output vector has length equal to the sum of the
per-filter channel counts, `400 + 300 + 200 + 100 + 100 = 1100`. -/
theorem C5_conv_output_shapes {d L w F : ℕ} (hw : 0 < w) (hwL : w ≤ L)
    (W : Fin w → Fin d → Fin F → ℝ) (b : Fin F → ℝ)
    (W1 : Fin 1 → Fin d → Fin 400 → ℝ) (b1 : Fin 400 → ℝ)
    (W3 : Fin 3 → Fin d → Fin 300 → ℝ) (b3 : Fin 300 → ℝ)
    (W5 : Fin 5 → Fin d → Fin 200 → ℝ) (b5 : Fin 200 → ℝ)
    (W10 : Fin 10 → Fin d → Fin 100 → ℝ) (b10 : Fin 100 → ℝ)
    (W20 : Fin 20 → Fin d → Fin 100 → ℝ) (b20 : Fin 100 → ℝ)
    (x : Fin L → Fin d → ℝ) :
    (convOutput d L w F W b x).length = L - w + 1 ∧
    (cnnHPoolList d L W1 b1 W3 b3 W5 b5 W10 b10 W20 b20 x).length =
      numFilters.sum ∧
    numFilters.sum = 1100 := by
  refine ⟨?_, ?_, by norm_num [numFilters]⟩
  · rw [convOutput, List.length_ofFn]
    omega
  · rw [cnnHPoolList]
    simp only [List.length_append, List.length_ofFn, numFilters,
      List.sum_cons, List.sum_nil]
    omega

/-- Witness for C5: width 3 on 20 frames, all weights zero. -/
theorem C5_conv_output_shapes_witness :
    (convOutput 1 20 3 7 (fun _ _ _ => 0) (fun _ => 0) (fun _ _ => 0)).length = 20 - 3 + 1 ∧
    (cnnHPoolList 1 20 (fun _ _ _ => 0) (fun _ => 0) (fun _ _ _ => 0) (fun _ => 0)
      (fun _ _ _ => 0) (fun _ => 0) (fun _ _ _ => 0) (fun _ => 0)
      (fun _ _ _ => 0) (fun _ => 0) (fun _ _ => 0)).length = numFilters.sum ∧
    numFilters.sum = 1100 :=
  C5_conv_output_shapes (by norm_num) (by norm_num) (fun _ _ _ => 0) (fun _ => 0)
    (fun _ _ _ => 0) (fun _ => 0) (fun _ _ _ => 0) (fun _ => 0)
    (fun _ _ _ => 0) (fun _ => 0) (fun _ _ _ => 0) (fun _ => 0)
    (fun _ _ _ => 0) (fun _ => 0) (fun _ _ => 0)

/-! ## Mask-normalization denominators (claim C8) -/

/-- Claim C8 (amended): if some frame slot has nonzero absolute-value sum,
the attention (line 275) and mixture (line 470) normalization denominators
are nonzero; the convolutional denominator for width `w` (line 407) is
nonzero provided some slot among the first `L - w + 1` has nonzero
absolute-value sum — which the original precondition alone does not
guarantee. -/
theorem C8_nonzero_denominators {d L : ℕ} (count : ℕ)
    (x : Fin L → Fin d → ℝ) (Wx Wa : Fin d → ℝ) (b : ℝ) (w : ℕ)
    (hw : 0 < w) (hx : ∃ f : Fin L, (∑ j, |x f j|) ≠ 0)
    (hp : ∃ f : Fin L, (f : ℕ) < L + 1 - w ∧ (∑ j, |x f j|) ≠ 0) :
    attDen Wx Wa b count x ≠ 0 ∧ maskSum x ≠ 0 ∧ cnnMaskSum w hw x ≠ 0 := by
  obtain ⟨f0, hf0⟩ := hx
  have hms : 0 < maskSum x := by
    apply Finset.sum_pos' (fun f _ => maskEntry_nonneg x f)
    exact ⟨f0, Finset.mem_univ f0, by
      rw [(maskEntry_eq_one_iff x f0).mpr hf0]; norm_num⟩
  refine ⟨?_, hms.ne', ?_⟩
  · rw [attDen_eq_maskSum]
    exact hms.ne'
  · obtain ⟨f1, hf1lt, hf1⟩ := hp
    have : 0 < cnnMaskSum w hw x := by
      unfold cnnMaskSum
      apply Finset.sum_pos' (fun q _ => maskEntry_nonneg x _)
      refine ⟨⟨(f1 : ℕ), hf1lt⟩, Finset.mem_univ _, ?_⟩
      have hidx : (⟨((⟨(f1 : ℕ), hf1lt⟩ : Fin (L + 1 - w)) : ℕ), by
          have := hf1lt; omega⟩ : Fin L) = f1 := Fin.ext rfl
      rw [hidx, (maskEntry_eq_one_iff x f1).mpr hf1]
      norm_num
    exact this.ne'

/-- Witness for C8: a single active one-feature frame, width-1 filter. -/
theorem C8_nonzero_denominators_witness :
    attDen ![0] ![0] 0 1 ![![(1 : ℝ)]] ≠ 0 ∧
    maskSum (K := ℝ) ![![(1 : ℝ)]] ≠ 0 ∧
    cnnMaskSum 1 one_pos ![![(1 : ℝ)]] ≠ 0 :=
  C8_nonzero_denominators 1 ![![(1 : ℝ)]] ![0] ![0] 0 1 one_pos
    ⟨0, by norm_num [Fin.sum_univ_one]⟩
    ⟨0, by norm_num, by norm_num [Fin.sum_univ_one]⟩

/-- Concrete batch refuting C8 as stated: 20 one-feature frame slots, only
slot 1 active. -/
def c8x : Fin 20 → Fin 1 → ℝ := fun f _ => if (f : ℕ) = 1 then 1 else 0

/-- Counterexample to C8 as stated: the batch `c8x` satisfies the claim's
precondition (slot 1 has nonzero absolute sum), yet the width-20 filter of
the convolutional aggregator has mask-normalization denominator `0` (its
truncated mask only sees slot 0). -/
theorem C8_counterexample :
    (∃ f : Fin 20, (∑ j, |c8x f j|) ≠ 0) ∧
    cnnMaskSum 20 (by norm_num) c8x = 0 := by
  constructor
  · exact ⟨1, by norm_num [c8x, Fin.sum_univ_one]⟩
  · unfold cnnMaskSum
    apply Finset.sum_eq_zero
    intro q _
    have hq : (q : ℕ) = 0 := by have := q.isLt; omega
    rw [maskEntry_eq_zero_iff]
    rw [Fin.sum_univ_one]
    simp [c8x, hq]

/-! ## DBoF initialization (`DbofModel.create_model`, lines 146-189)

`cluster_weights` (lines 146-148) and `cluster_biases` (lines 159-161) are
drawn with `stddev = 1/math.sqrt(feature_size)`; `hidden1_weights`
(lines 170-172) with `stddev = 1/math.sqrt(cluster_size)`; `hidden1_biases`
(lines 183-185) with the constant `stddev = 0.01`. -/

/-- The four learned-parameter tensors of the DBoF aggregator. -/
inductive DbofLayerTag where
  | clusterWeights
  | clusterBiases
  | hidden1Weights
  | hidden1Biases
  deriving DecidableEq

/-- The Gaussian standard deviation each DBoF layer is drawn with
(lines 146-148, 159-161, 170-172, 183-185). -/
noncomputable def dbofInitStddev (featureSize clusterSize : ℕ) :
    DbofLayerTag → ℝ
  | .clusterWeights => 1 / Real.sqrt (featureSize : ℝ)
  | .clusterBiases => 1 / Real.sqrt (featureSize : ℝ)
  | .hidden1Weights => 1 / Real.sqrt (clusterSize : ℝ)
  | .hidden1Biases => 0.01

/-- The input dimension of the linear layer each parameter belongs to. -/
def dbofInputDim (featureSize clusterSize : ℕ) : DbofLayerTag → ℕ
  | .clusterWeights => featureSize
  | .clusterBiases => featureSize
  | .hidden1Weights => clusterSize
  | .hidden1Biases => clusterSize

/-- Claim C6 (amended): every DBoF parameter except the hidden-layer biases
is initialized with stddev the inverse square root of its layer's input
dimension; the hidden-layer biases use the fixed stddev `0.01` instead. -/
theorem C6_dbof_init_stddev (featureSize clusterSize : ℕ)
    (tag : DbofLayerTag) (htag : tag ≠ DbofLayerTag.hidden1Biases) :
    dbofInitStddev featureSize clusterSize tag =
      1 / Real.sqrt (dbofInputDim featureSize clusterSize tag : ℝ) ∧
    dbofInitStddev featureSize clusterSize DbofLayerTag.hidden1Biases = 0.01 := by
  cases tag <;> simp_all [dbofInitStddev, dbofInputDim]

/-- Witness for C6 at the flag-default sizes. -/
theorem C6_dbof_init_stddev_witness :
    dbofInitStddev 1024 8192 DbofLayerTag.clusterWeights =
      1 / Real.sqrt (dbofInputDim 1024 8192 DbofLayerTag.clusterWeights : ℝ) ∧
    dbofInitStddev 1024 8192 DbofLayerTag.hidden1Biases = 0.01 :=
  C6_dbof_init_stddev 1024 8192 DbofLayerTag.clusterWeights (by decide)

/-- Counterexample to C6 as stated: at the default `cluster_size = 8192`,
the hidden-layer biases' stddev `0.01` is not `1/sqrt(8192)` (that would
require `8192 = 100^2`). -/
theorem C6_counterexample :
    dbofInitStddev 1024 8192 DbofLayerTag.hidden1Biases ≠
      1 / Real.sqrt (dbofInputDim 1024 8192 DbofLayerTag.hidden1Biases : ℝ) := by
  intro h
  have hcast : ((dbofInputDim 1024 8192 DbofLayerTag.hidden1Biases : ℕ) : ℝ) = 8192 := by
    norm_num [dbofInputDim]
  rw [hcast, show dbofInitStddev 1024 8192 DbofLayerTag.hidden1Biases = 0.01 from rfl] at h
  have hpos : (0 : ℝ) < Real.sqrt 8192 := Real.sqrt_pos.mpr (by norm_num)
  rw [eq_div_iff hpos.ne'] at h
  have hs : Real.sqrt 8192 = 100 := by linarith
  have h2 := Real.sq_sqrt (show (0 : ℝ) ≤ 8192 by norm_num)
  rw [hs] at h2
  norm_num at h2

/-! ## DBoF argument defaulting (`DbofModel.create_model`, lines 109-124)

Lines 120-124 combine each optional argument with its flag default using
Python `or`: `iterations = iterations or FLAGS.iterations`, and so on.
For Python integers, `None` and `0` are falsy; for booleans, `None` and
`False` are. -/

/-- Python `passed or flagVal` for an optional integer argument. -/
def pyOrInt (passed : Option ℤ) (flagVal : ℤ) : ℤ :=
  match passed with
  | none => flagVal
  | some v => if v = 0 then flagVal else v

/-- Python `passed or flagVal` for an optional boolean argument. -/
def pyOrBool (passed : Option Bool) (flagVal : Bool) : Bool :=
  match passed with
  | none => flagVal
  | some bv => if bv then bv else flagVal

/-- The five flags read on lines 120-124. -/
structure DbofFlags where
  iterations : ℤ
  dbofAddBatchNorm : Bool
  sampleRandomFramesFlag : Bool
  dbofClusterSize : ℤ
  dbofHiddenSize : ℤ

/-- The five values `create_model` actually uses after the `or` defaulting. -/
structure DbofResolved where
  iterations : ℤ
  addBatchNorm : Bool
  randomFrames : Bool
  clusterSize : ℤ
  hidden1Size : ℤ
  deriving DecidableEq

/-- The argument resolution of lines 120-124. -/
def dbofResolve (iterations : Option ℤ)
    (addBatchNorm sampleRandomFramesArg : Option Bool)
    (clusterSize hiddenSize : Option ℤ) (fl : DbofFlags) : DbofResolved where
  iterations := pyOrInt iterations fl.iterations
  addBatchNorm := pyOrBool addBatchNorm fl.dbofAddBatchNorm
  randomFrames := pyOrBool sampleRandomFramesArg fl.sampleRandomFramesFlag
  clusterSize := pyOrInt clusterSize fl.dbofClusterSize
  hidden1Size := pyOrInt hiddenSize fl.dbofHiddenSize

/-- Claim C9: every falsy argument (`None`, `0`, `False`) resolves to the
flag default, so passing `add_batch_norm=False` or
`sample_random_frames=False` cannot turn those features off when the
corresponding flag defaults to `True`. -/
theorem C9_dbof_or_defaults (fl : DbofFlags) :
    dbofResolve (some 0) (some false) (some false) (some 0) (some 0) fl =
      dbofResolve none none none none none fl ∧
    dbofResolve none none none none none fl =
      ⟨fl.iterations, fl.dbofAddBatchNorm, fl.sampleRandomFramesFlag,
        fl.dbofClusterSize, fl.dbofHiddenSize⟩ ∧
    (dbofResolve none (some false) (some false) none none
      { fl with dbofAddBatchNorm := true,
                sampleRandomFramesFlag := true }).addBatchNorm = true ∧
    (dbofResolve none (some false) (some false) none none
      { fl with dbofAddBatchNorm := true,
                sampleRandomFramesFlag := true }).randomFrames = true := by
  refine ⟨?_, rfl, rfl, rfl⟩
  simp [dbofResolve, pyOrInt, pyOrBool]

/-! ## Frame sub-sampling utilities (spec §4.2)

`utils.SampleRandomFrames` and `utils.SampleRandomSequence` are called on
lines 127-132 but `model_utils` is not part of this repository's files, so
both are modelled from the spec. Randomness is represented by arbitrary
natural-number draws reduced into the uniform range. -/

/-- Modelled from the spec: `model_utils.SampleRandomFrames` is missing from
the repository files; per §4.2 each of the `k` returned indices is drawn
uniformly from `[0, frame_count)`, here as an arbitrary draw `r i` reduced
modulo `count`. -/
def frameIdx (count k : ℕ) (r : Fin k → ℕ) (i : Fin k) : ℕ := r i % count

/-- Modelled from the spec: the list of `k` frame indices the independent
sampler returns. -/
def sampleRandomFrames (count k : ℕ) (r : Fin k → ℕ) : List ℕ :=
  List.ofFn (frameIdx count k r)

/-- Modelled from the spec: `model_utils.SampleRandomSequence`'s start
offset, drawn uniformly from `[0, frame_count - k]` (or `0` when
`frame_count ≤ k`), here as an arbitrary draw `r` reduced into the range. -/
def seqOffset (count k : ℕ) (r : ℕ) : ℕ :=
  if k < count then r % (count - k + 1) else 0

/-- Modelled from the spec: the `i`-th index of the contiguous block. Per
§4.2 the sampler must never read beyond `frame_count - 1` and must return
exactly `k` frames (repeating frames when `frame_count < k`), so the block
is clamped at the last real frame. -/
def seqIdx (count k : ℕ) (r : ℕ) (i : Fin k) : ℕ :=
  min (seqOffset count k r + i) (count - 1)

/-- Modelled from the spec: the list of `k` frame indices the contiguous
sampler returns. -/
def sampleRandomSequence (count k : ℕ) (r : ℕ) : List ℕ :=
  List.ofFn (seqIdx count k r)

/-- Claim C7 (amended): both samplers return exactly `k` indices, every
returned index is below the declared frame count, the contiguous offset
lies in `[0, frame_count - k]`, and — whenever `k ≤ frame_count` — the
contiguous variant returns strictly increasing consecutive indices starting
at the offset; when `frame_count < k` the block is clamped at the last real
frame, repeating it. -/
theorem C7_sampling_bounds (count k : ℕ) (r1 : Fin k → ℕ) (r : ℕ)
    (hc : 0 < count) :
    (sampleRandomFrames count k r1).length = k ∧
    (∀ i, frameIdx count k r1 i < count) ∧
    (sampleRandomSequence count k r).length = k ∧
    (∀ i, seqIdx count k r i < count) ∧
    seqOffset count k r ≤ count - k ∧
    (k ≤ count → ∀ i : Fin k, seqIdx count k r i = seqOffset count k r + i) := by
  have hoff : seqOffset count k r ≤ count - k := by
    unfold seqOffset
    split
    · next hk =>
      have := Nat.mod_lt r (show 0 < count - k + 1 by omega)
      omega
    · omega
  refine ⟨List.length_ofFn _, fun i => Nat.mod_lt _ hc,
    List.length_ofFn _, fun i => ?_, hoff, fun hk i => ?_⟩
  · unfold seqIdx
    have : min (seqOffset count k r + (i : ℕ)) (count - 1) ≤ count - 1 :=
      min_le_right _ _
    omega
  · unfold seqIdx
    have hi := i.isLt
    exact min_eq_left (by omega)

/-- Witness for C7: three real frames, two sampled. -/
theorem C7_sampling_bounds_witness :
    (sampleRandomFrames 3 2 (fun _ => 5)).length = 2 ∧
    (∀ i, frameIdx 3 2 (fun _ => 5) i < 3) ∧
    (sampleRandomSequence 3 2 4).length = 2 ∧
    (∀ i, seqIdx 3 2 4 i < 3) ∧
    seqOffset 3 2 4 ≤ 3 - 2 ∧
    (2 ≤ 3 → ∀ i : Fin 2, seqIdx 3 2 4 i = seqOffset 3 2 4 + i) :=
  C7_sampling_bounds 3 2 (fun _ => 5) 4 (by norm_num)

/-- Counterexample to C7 as stated: with one real frame and `k = 2` the
contiguous sampler returns `[0, 0]` — exactly `2` indices, all below the
frame count, but not strictly increasing consecutive. -/
theorem C7_counterexample :
    sampleRandomSequence 1 2 0 = [0, 0] ∧
    ¬ (seqIdx 1 2 0 1 = seqIdx 1 2 0 0 + 1) := by
  decide

/-! ## The recurrent aggregator (`LstmModel.create_model`, lines 198-237)

Lines 227-230 delegate to `tf.nn.dynamic_rnn` with
`sequence_length = num_frames`; that function is not part of the
repository's files, so the recurrence is modelled from the spec. -/

/-- Modelled from the spec (§4.4): `tf.nn.dynamic_rnn` with a sequence
length — missing from the repository files — processes the padded sequence
but "the recurrence effectively stops updating state past each video's true
length". `cell` abstracts the stacked LSTM cell, `init` its zero state;
`lstmState … t` is the state after the first `t` steps. -/
def lstmState {K : Type*} [LinearOrderedField K] {S : Type*} {d L : ℕ}
    (cell : S → (Fin d → K) → S) (init : S) (x : Fin L → Fin d → K)
    (count : ℕ) : ℕ → S
  | 0 => init
  | t + 1 =>
    if h : t < L ∧ t < count then
      cell (lstmState cell init x count t) (x ⟨t, h.1⟩)
    else lstmState cell init x count t

/-- Modelled from the spec (§4.4): the final state after the whole padded
sequence, the `LstmModel` aggregator output. -/
def lstmFinal {K : Type*} [LinearOrderedField K] {S : Type*} {d L : ℕ}
    (cell : S → (Fin d → K) → S) (init : S) (x : Fin L → Fin d → K)
    (count : ℕ) : S :=
  lstmState cell init x count L

/-! ## The bag-of-features aggregator's reads (`DbofModel.create_model`,
lines 126-196) -/

/-- The frame matrix the DBoF aggregator actually reads (lines 127-132):
the `iterations` frames gathered at the spec-modelled sampled indices —
independent (`frameIdx`) when `sample_random_frames` is set, contiguous
(`seqIdx`) otherwise. Every sampled index is below the declared frame
count; `hcL` is the data-model bound `frame_count ≤ max_frames` (§3). -/
def dbofSampled {K : Type*} [LinearOrderedField K] {d L : ℕ} (count k : ℕ)
    (hc : 0 < count) (hcL : count ≤ L) (useRandom : Bool) (r : Fin k → ℕ)
    (rs : ℕ) (x : Fin L → Fin d → K) (i : Fin k) (j : Fin d) : K :=
  if useRandom then
    x ⟨frameIdx count k r i, lt_of_lt_of_le (Nat.mod_lt _ hc) hcL⟩ j
  else
    x ⟨seqIdx count k rs i, by
      have h1 : seqIdx count k rs i ≤ count - 1 := min_le_right _ _
      omega⟩ j

/-- The DBoF aggregator's output as a function of its reads: every step
after the gather (lines 133-196 — batch normalization, the cluster
projection, `relu6`, frame pooling, the hidden layer and the downstream
classifier) depends on the frame batch only through the sampled matrix, and
`rest` abstracts that pipeline. -/
def dbofOutput {K : Type*} [LinearOrderedField K] {d L V : ℕ} (count k : ℕ)
    (hc : 0 < count) (hcL : count ≤ L) (useRandom : Bool) (r : Fin k → ℕ)
    (rs : ℕ) (rest : (Fin k → Fin d → K) → Fin V → K)
    (x : Fin L → Fin d → K) : Fin V → K :=
  rest (dbofSampled count k hc hcL useRandom r rs x)

/-! ## Permutation invariance (claim C4) -/

section PermInvariance

variable {K : Type*} [LinearOrderedField K] {d L : ℕ} (σ : Equiv.Perm (Fin L))

lemma maskEntry_comp (x : Fin L → Fin d → K) (f : Fin L) :
    maskEntry (fun g => x (σ g)) f = maskEntry x (σ f) := rfl

lemma maskSum_comp (x : Fin L → Fin d → K) :
    maskSum (fun g => x (σ g)) = maskSum x := by
  unfold maskSum
  rw [Finset.sum_congr rfl fun f _ => maskEntry_comp σ x f]
  exact Equiv.sum_comp σ (maskEntry x)

lemma maskWeight_comp (x : Fin L → Fin d → K) (f : Fin L) :
    maskWeight (fun g => x (σ g)) f = maskWeight x (σ f) := by
  unfold maskWeight
  rw [maskEntry_comp, maskSum_comp]

lemma avgPooled_comp (count : ℕ) (x : Fin L → Fin d → ℝ) (j : Fin d) :
    avgPooled count (fun g => x (σ g)) j = avgPooled count x j := by
  unfold avgPooled
  rw [Equiv.sum_comp σ fun f => x f j]

lemma attLogit_comp (Wx Wa : Fin d → ℝ) (b : ℝ) (count : ℕ)
    (x : Fin L → Fin d → ℝ) (f : Fin L) :
    attLogit Wx Wa b count (fun g => x (σ g)) f = attLogit Wx Wa b count x (σ f) := by
  unfold attLogit
  simp only [avgPooled_comp]

lemma attPre_comp (Wx Wa : Fin d → ℝ) (b : ℝ) (count : ℕ)
    (x : Fin L → Fin d → ℝ) (f : Fin L) :
    attPre Wx Wa b count (fun g => x (σ g)) f = attPre Wx Wa b count x (σ f) := by
  unfold attPre
  rw [attLogit_comp]

lemma attDen_comp (Wx Wa : Fin d → ℝ) (b : ℝ) (count : ℕ)
    (x : Fin L → Fin d → ℝ) :
    attDen Wx Wa b count (fun g => x (σ g)) = attDen Wx Wa b count x := by
  unfold attDen
  rw [Finset.sum_congr rfl fun g _ => by
    rw [attPre_comp, maskEntry_comp]]
  exact Equiv.sum_comp σ fun g => attPre Wx Wa b count x g * maskEntry x g

lemma atten_comp (Wx Wa : Fin d → ℝ) (b : ℝ) (count : ℕ)
    (x : Fin L → Fin d → ℝ) (f : Fin L) :
    atten Wx Wa b count (fun g => x (σ g)) f = atten Wx Wa b count x (σ f) := by
  unfold atten
  rw [attPre_comp, maskEntry_comp, attDen_comp]

lemma attState_comp (Wx Wa : Fin d → ℝ) (b : ℝ) (count : ℕ)
    (x : Fin L → Fin d → ℝ) (j : Fin d) :
    attState Wx Wa b count (fun g => x (σ g)) j = attState Wx Wa b count x j := by
  unfold attState
  rw [Finset.sum_congr rfl fun f _ => by rw [atten_comp]]
  exact Equiv.sum_comp σ fun f => x f j * atten Wx Wa b count x f

lemma mixVideoFeatures_comp (hidden : (Fin d → K) → Fin d → K)
    (x : Fin L → Fin d → K) (j : Fin d) :
    mixVideoFeatures hidden (fun g => x (σ g)) j = mixVideoFeatures hidden x j := by
  unfold mixVideoFeatures
  rw [Finset.sum_congr rfl fun f _ => by rw [maskWeight_comp]]
  exact Equiv.sum_comp σ fun f => hidden (x f) j * maskWeight x f

lemma mixOutPre_comp {V : ℕ} (hidden : (Fin d → K) → Fin d → K)
    (pred : (Fin d → K) → Fin V → K) (x : Fin L → Fin d → K) (v : Fin V) :
    mixOutPre hidden pred (fun g => x (σ g)) v = mixOutPre hidden pred x v := by
  unfold mixOutPre
  rw [Finset.sum_congr rfl fun f _ => by rw [maskWeight_comp]]
  exact Equiv.sum_comp σ fun f => pred (hidden (x f)) v * maskWeight x f

lemma mixPredictions_comp {V : ℕ} (cls : (Fin d → K) → Fin V → K)
    (hidden : (Fin d → K) → Fin d → K) (pred : (Fin d → K) → Fin V → K)
    (x : Fin L → Fin d → K) (v : Fin V) :
    mixPredictions cls hidden pred (fun g => x (σ g)) v =
      mixPredictions cls hidden pred x v := by
  unfold mixPredictions mixOut
  rw [mixOutPre_comp, Finset.sum_congr rfl fun u _ => mixOutPre_comp σ hidden pred x u,
    show mixVideoFeatures hidden (fun g => x (σ g)) = mixVideoFeatures hidden x from
      funext fun j => mixVideoFeatures_comp σ hidden x j]

lemma lstmState_comp {S : Type*} (count : ℕ)
    (hσ : ∀ f : Fin L, (f : ℕ) < count → σ f = f)
    (cell : S → (Fin d → K) → S) (init : S) (x : Fin L → Fin d → K) :
    ∀ t, lstmState cell init (fun g => x (σ g)) count t =
      lstmState cell init x count t := by
  intro t
  induction t with
  | zero => rfl
  | succ t ih =>
    unfold lstmState
    split
    · next h =>
      rw [ih, hσ ⟨t, h.1⟩ h.2]
    · exact ih

lemma dbofSampled_comp (count k : ℕ) (hc : 0 < count) (hcL : count ≤ L)
    (useRandom : Bool) (r : Fin k → ℕ) (rs : ℕ)
    (hσ : ∀ f : Fin L, (f : ℕ) < count → σ f = f) (x : Fin L → Fin d → K) :
    dbofSampled count k hc hcL useRandom r rs (fun g => x (σ g)) =
      dbofSampled count k hc hcL useRandom r rs x := by
  funext i j
  unfold dbofSampled
  split
  · exact congrFun (congrArg x (hσ ⟨frameIdx count k r i,
      lt_of_lt_of_le (Nat.mod_lt _ hc) hcL⟩ (Nat.mod_lt _ hc))) j
  · have h1 : seqIdx count k rs i ≤ count - 1 := min_le_right _ _
    have h2 : seqIdx count k rs i < count := by omega
    exact congrFun (congrArg x (hσ ⟨seqIdx count k rs i, by omega⟩ h2)) j

lemma dbofOutput_comp {V : ℕ} (count k : ℕ) (hc : 0 < count) (hcL : count ≤ L)
    (useRandom : Bool) (r : Fin k → ℕ) (rs : ℕ)
    (hσ : ∀ f : Fin L, (f : ℕ) < count → σ f = f)
    (rest : (Fin k → Fin d → K) → Fin V → K) (x : Fin L → Fin d → K) :
    dbofOutput count k hc hcL useRandom r rs rest (fun g => x (σ g)) =
      dbofOutput count k hc hcL useRandom r rs rest x := by
  unfold dbofOutput
  rw [dbofSampled_comp σ count k hc hcL useRandom r rs hσ x]

lemma perm_comp_eq_self (count : ℕ)
    (hσ : ∀ f : Fin L, (f : ℕ) < count → σ f = f)
    (x : Fin L → Fin d → K)
    (hpad : ∀ f : Fin L, count ≤ (f : ℕ) → ∀ j, x f j = 0) :
    (fun g => x (σ g)) = x := by
  funext f
  by_cases hf : (f : ℕ) < count
  · rw [hσ f hf]
  · funext j
    have hσf : count ≤ ((σ f : Fin L) : ℕ) := by
      by_contra hlt
      push_neg at hlt
      have := hσ (σ f) hlt
      have hff := σ.injective this
      rw [hff] at hlt
      omega
    rw [hpad (σ f) hσf, hpad f (by omega)]

end PermInvariance

/-- Claim C4 (amended): permuting a video's frame entries at indices at or
past its declared frame count leaves the attention, mixture, (spec-
modelled, count-gated) recurrent, and bag-of-features (whose every read is
a sampled frame below the count) aggregator outputs unchanged for every
batch; the convolutional aggregator's output is unchanged provided the
padding entries are zero (the data-model invariant) — with nonzero padding
content it can change. -/
theorem C4_padding_permutation {K : Type*} [LinearOrderedField K]
    {S : Type*} {d L V : ℕ} (count : ℕ) (σ : Equiv.Perm (Fin L))
    (hσ : ∀ f : Fin L, (f : ℕ) < count → σ f = f) :
    (∀ (x : Fin L → Fin d → ℝ) (Wx Wa : Fin d → ℝ) (b : ℝ) (j : Fin d),
      attState Wx Wa b count (fun g => x (σ g)) j =
        attState Wx Wa b count x j) ∧
    (∀ (x : Fin L → Fin d → K) (cls : (Fin d → K) → Fin V → K)
       (hidden : (Fin d → K) → Fin d → K) (pred : (Fin d → K) → Fin V → K)
       (v : Fin V),
      mixPredictions cls hidden pred (fun g => x (σ g)) v =
        mixPredictions cls hidden pred x v) ∧
    (∀ (cell : S → (Fin d → K) → S) (init : S) (x : Fin L → Fin d → K),
      lstmFinal cell init (fun g => x (σ g)) count =
        lstmFinal cell init x count) ∧
    (∀ (k : ℕ) (hc : 0 < count) (hcL : count ≤ L) (useRandom : Bool)
       (r : Fin k → ℕ) (rs : ℕ) (rest : (Fin k → Fin d → K) → Fin V → K)
       (x : Fin L → Fin d → K),
      dbofOutput count k hc hcL useRandom r rs rest (fun g => x (σ g)) =
        dbofOutput count k hc hcL useRandom r rs rest x) ∧
    (∀ (x : Fin L → Fin d → ℝ)
       (W1 : Fin 1 → Fin d → Fin 400 → ℝ) (b1 : Fin 400 → ℝ)
       (W3 : Fin 3 → Fin d → Fin 300 → ℝ) (b3 : Fin 300 → ℝ)
       (W5 : Fin 5 → Fin d → Fin 200 → ℝ) (b5 : Fin 200 → ℝ)
       (W10 : Fin 10 → Fin d → Fin 100 → ℝ) (b10 : Fin 100 → ℝ)
       (W20 : Fin 20 → Fin d → Fin 100 → ℝ) (b20 : Fin 100 → ℝ),
      (∀ f : Fin L, count ≤ (f : ℕ) → ∀ j, x f j = 0) →
      cnnHPoolList d L W1 b1 W3 b3 W5 b5 W10 b10 W20 b20 (fun g => x (σ g)) =
        cnnHPoolList d L W1 b1 W3 b3 W5 b5 W10 b10 W20 b20 x) := by
  refine ⟨fun x Wx Wa b j => attState_comp σ Wx Wa b count x j,
    fun x cls hidden pred v => mixPredictions_comp σ cls hidden pred x v,
    fun cell init x => lstmState_comp σ count hσ cell init x L,
    fun k hc hcL useRandom r rs rest x =>
      dbofOutput_comp σ count k hc hcL useRandom r rs hσ rest x,
    fun x W1 b1 W3 b3 W5 b5 W10 b10 W20 b20 hpad => ?_⟩
  rw [perm_comp_eq_self σ count hσ x hpad]

/-- Witness for C4: three one-feature frame slots, frame count 1, the
transposition of the two padding slots. -/
theorem C4_padding_permutation_witness :
    (∀ (x : Fin 3 → Fin 1 → ℝ) (Wx Wa : Fin 1 → ℝ) (b : ℝ) (j : Fin 1),
      attState Wx Wa b 1 (fun g => x (Equiv.swap (1 : Fin 3) 2 g)) j =
        attState Wx Wa b 1 x j) ∧
    (∀ (x : Fin 3 → Fin 1 → ℚ) (cls : (Fin 1 → ℚ) → Fin 1 → ℚ)
       (hidden : (Fin 1 → ℚ) → Fin 1 → ℚ) (pred : (Fin 1 → ℚ) → Fin 1 → ℚ)
       (v : Fin 1),
      mixPredictions cls hidden pred (fun g => x (Equiv.swap (1 : Fin 3) 2 g)) v =
        mixPredictions cls hidden pred x v) ∧
    (∀ (cell : Unit → (Fin 1 → ℚ) → Unit) (init : Unit) (x : Fin 3 → Fin 1 → ℚ),
      lstmFinal cell init (fun g => x (Equiv.swap (1 : Fin 3) 2 g)) 1 =
        lstmFinal cell init x 1) ∧
    (∀ (k : ℕ) (hc : 0 < 1) (hcL : 1 ≤ 3) (useRandom : Bool)
       (r : Fin k → ℕ) (rs : ℕ) (rest : (Fin k → Fin 1 → ℚ) → Fin 1 → ℚ)
       (x : Fin 3 → Fin 1 → ℚ),
      dbofOutput 1 k hc hcL useRandom r rs rest
          (fun g => x (Equiv.swap (1 : Fin 3) 2 g)) =
        dbofOutput 1 k hc hcL useRandom r rs rest x) ∧
    (∀ (x : Fin 3 → Fin 1 → ℝ)
       (W1 : Fin 1 → Fin 1 → Fin 400 → ℝ) (b1 : Fin 400 → ℝ)
       (W3 : Fin 3 → Fin 1 → Fin 300 → ℝ) (b3 : Fin 300 → ℝ)
       (W5 : Fin 5 → Fin 1 → Fin 200 → ℝ) (b5 : Fin 200 → ℝ)
       (W10 : Fin 10 → Fin 1 → Fin 100 → ℝ) (b10 : Fin 100 → ℝ)
       (W20 : Fin 20 → Fin 1 → Fin 100 → ℝ) (b20 : Fin 100 → ℝ),
      (∀ f : Fin 3, 1 ≤ (f : ℕ) → ∀ j, x f j = 0) →
      cnnHPoolList 1 3 W1 b1 W3 b3 W5 b5 W10 b10 W20 b20
          (fun g => x (Equiv.swap (1 : Fin 3) 2 g)) =
        cnnHPoolList 1 3 W1 b1 W3 b3 W5 b5 W10 b10 W20 b20 x) :=
  C4_padding_permutation (K := ℚ) (S := Unit) (d := 1) (V := 1) 1
    (Equiv.swap 1 2) (by decide)

/-- Concrete batch for the C4 counterexample: 20 one-feature slots, frame
count 1, slots 0 and 1 holding the value 1. Slot 1 is padding content. -/
def c4xA : Fin 20 → Fin 1 → ℝ := fun f _ => if (f : ℕ) = 0 ∨ (f : ℕ) = 1 then 1 else 0

/-- The batch `c4xA` with its padding region permuted by the transposition
of slots 1 and 19. -/
def c4xB : Fin 20 → Fin 1 → ℝ := fun f _ => if (f : ℕ) = 0 ∨ (f : ℕ) = 19 then 1 else 0

lemma c4_maskSumA : cnnMaskSum 10 (by norm_num) c4xA = 2 := by
  unfold cnnMaskSum maskEntry c4xA
  norm_num [Fin.sum_univ_succ]
  norm_cast

lemma c4_maskSumB : cnnMaskSum 10 (by norm_num) c4xB = 1 := by
  unfold cnnMaskSum maskEntry c4xB
  norm_num [Fin.sum_univ_succ]
  decide

lemma c4_pooledA :
    cnnPooledFilter 1 20 10 100 (by norm_num) (fun _ _ _ => 1) (fun _ => 0) c4xA 0 =
      (Real.tanh 2 + Real.tanh 1) / 2 := by
  unfold cnnPooledFilter convVal cnnFrameBool
  rw [c4_maskSumA]
  unfold maskEntry c4xA
  norm_num [Fin.sum_univ_succ]
  have h1 : (filter (fun x : Fin 10 => (x : ℕ) = 0 ∨ (x : ℕ) = 1) univ).card = 2 := by decide
  have h2 : (filter (fun x : Fin 10 => (x : ℕ) = 0) univ).card = 1 := by decide
  rw [h1, h2]
  norm_num
  ring

lemma c4_pooledB :
    cnnPooledFilter 1 20 10 100 (by norm_num) (fun _ _ _ => 1) (fun _ => 0) c4xB 0 =
      Real.tanh 1 := by
  unfold cnnPooledFilter convVal cnnFrameBool
  rw [c4_maskSumB]
  unfold maskEntry c4xB
  norm_num [Fin.sum_univ_succ]
  have h1 : (filter (fun x : Fin 10 => (x : ℕ) = 0 ∨ (x : ℕ) = 19) univ).card = 1 := by decide
  rw [h1]
  norm_num

lemma tanh_one_lt_tanh_two : Real.tanh 1 < Real.tanh 2 := by
  rw [Real.tanh_eq_sinh_div_cosh, Real.tanh_eq_sinh_div_cosh,
    div_lt_div_iff₀ (Real.cosh_pos 1) (Real.cosh_pos 2)]
  have hs := Real.sinh_sub (2 : ℝ) 1
  norm_num at hs
  nlinarith [Real.sinh_pos_iff.mpr (by norm_num : (0 : ℝ) < 1),
    Real.cosh_pos (1 : ℝ), Real.cosh_pos (2 : ℝ)]

/-- Counterexample to C4 as stated: on the batch `c4xA` (declared frame
count 1), the transposition of padding slots 1 and 19 fixes every real
frame, yet changes the convolutional aggregator's output: the width-10
filter pools `(tanh 2 + tanh 1)/2` before and `tanh 1` after. -/
theorem C4_counterexample :
    (∀ f : Fin 20, (f : ℕ) < 1 → Equiv.swap (1 : Fin 20) 19 f = f) ∧
    cnnHPoolList 1 20 (fun _ _ _ => 1) (fun _ => 0) (fun _ _ _ => 1) (fun _ => 0)
        (fun _ _ _ => 1) (fun _ => 0) (fun _ _ _ => 1) (fun _ => 0)
        (fun _ _ _ => 1) (fun _ => 0)
        (fun g => c4xA (Equiv.swap (1 : Fin 20) 19 g)) ≠
      cnnHPoolList 1 20 (fun _ _ _ => 1) (fun _ => 0) (fun _ _ _ => 1) (fun _ => 0)
        (fun _ _ _ => 1) (fun _ => 0) (fun _ _ _ => 1) (fun _ => 0)
        (fun _ _ _ => 1) (fun _ => 0) c4xA := by
  refine ⟨by decide, ?_⟩
  have hcomp : (fun g => c4xA (Equiv.swap (1 : Fin 20) 19 g)) = c4xB := by
    funext f j
    fin_cases f <;> rfl
  rw [hcomp]
  intro h
  unfold cnnHPoolList at h
  have h1 := (List.append_inj h (by rw [List.length_ofFn, List.length_ofFn])).2
  have h2 := (List.append_inj h1 (by rw [List.length_ofFn, List.length_ofFn])).2
  have h3 := (List.append_inj h2 (by rw [List.length_ofFn, List.length_ofFn])).2
  have h4 := (List.append_inj h3 (by rw [List.length_ofFn, List.length_ofFn])).1
  have h5 := congrFun (List.ofFn_inj.mp h4) 0
  rw [c4_pooledA, c4_pooledB] at h5
  have hlt := tanh_one_lt_tanh_two
  nlinarith [h5, hlt]

end FrameLevelModels
